import Mathlib

/-!
Verification of the deepseek-history-viewer extraction / indexing / search core.

The Rust sources are shallowly embedded:
* `serde_json::Value` is modelled by the inductive `Json`; objects keep the
  key order and are looked up front-to-back, matching `serde_json::Map::get`
  on maps without duplicate keys.
* Rust `String` is modelled by Lean `String`; `chars()` is `String.data`
  (a list of Unicode code points).
* The recursive tree walks in `indexer.rs` / `generator.rs` can diverge on a
  cyclic mapping (the Rust code has no cycle guard), so they are embedded with
  an explicit `fuel` parameter that is only consumed when descending into a
  node's `children`; all theorems hold uniformly in the fuel.
* The parts of the engine implemented by the `tantivy` library (tokenizer,
  query handling, scoring, result collection) are not part of this
  repository's sources; they are modelled from the spec, with the concrete
  configuration (ngram min 2 / max 10, lower-casing, title boost 2.0,
  snippet length 200, default limit 20) taken from `search.rs`, `indexer.rs`
  and `server.rs`.
-/

namespace DeepseekViewer

/-- Model of `serde_json::Value`.  Numbers are irrelevant to every claim and
are modelled as integers. -/
inductive Json where
  | null : Json
  | bool : Bool → Json
  | num : Int → Json
  | str : String → Json
  | arr : List Json → Json
  | obj : List (String × Json) → Json

/-- Lookup in a JSON object, mirroring `serde_json::Map::get` (maps produced
by the parser have unique keys; the first hit is returned). -/
def jlookup : List (String × Json) → String → Option Json
  | [], _ => none
  | (k, v) :: rest, key => if k = key then some v else jlookup rest key

/-- `Value::get(key)` : `Some` only on objects that contain the key. -/
def Json.get (j : Json) (key : String) : Option Json :=
  match j with
  | Json.obj kvs => jlookup kvs key
  | _ => none

/-- `Value::as_str`. -/
def Json.as_str : Json → Option String
  | Json.str s => some s
  | _ => none

/-- `Value::as_array`. -/
def Json.as_array : Json → Option (List Json)
  | Json.arr xs => some xs
  | _ => none

/-- `Value::as_object`. -/
def Json.as_object : Json → Option (List (String × Json))
  | Json.obj kvs => some kvs
  | _ => none

/-! ### indexer.rs : `extract_messages` -/

/-- `fragment.get("content").and_then(|c| c.as_str())`, shared by the
indexing walk (indexer.rs 115) and the rendering walk (generator.rs
184-185). -/
def fragOpt (fragment : Json) : Option String :=
  (fragment.get "content").bind Json.as_str

/-- The inner fragment loop of `extract_messages` (indexer.rs 114-119):
for each fragment whose `content` is a string, push the content followed by
one space; fragments without a string `content` are skipped. -/
def fragmentsText : List Json → String
  | [] => ""
  | fragment :: rest =>
    (match fragOpt fragment with
     | some text => text ++ " "
     | none => "") ++ fragmentsText rest

/-- The `message` block of `extract_messages` (indexer.rs 112-121): a node
contributes text only if it has a `message` whose `fragments` is an array. -/
def messageText (child : Json) : String :=
  match child.get "message" with
  | none => ""
  | some message =>
    match (message.get "fragments").bind Json.as_array with
    | none => ""
    | some fragments => fragmentsText fragments

/-- `extract_messages` (indexer.rs 104-129): walk the `children` id list in
order; a non-string entry or an id absent from the mapping contributes
nothing; a found node contributes its message text and then its own
`children` are walked recursively.  `fuel` bounds the recursion depth (the
Rust function is partial on cyclic mappings). -/
def extract_messages (mapping : List (String × Json)) (fuel : Nat)
    (children : List Json) : String :=
  match children with
  | [] => ""
  | childId :: rest =>
    (match childId.as_str with
     | none => ""
     | some cid =>
       match jlookup mapping cid with
       | none => ""
       | some child =>
         messageText child ++
         (match (child.get "children").bind Json.as_array with
          | none => ""
          | some grandchildren =>
            match fuel with
            | 0 => ""
            | f + 1 => extract_messages mapping f grandchildren)) ++
    extract_messages mapping fuel rest
termination_by (fuel, children)

/-! ### generator.rs : `extract_messages_recursive`

Only the collected fragment `content` strings are modelled; the message
type, markdown rendering and timestamps are out of scope (spec §1). -/

/-- A rendered fragment's raw content (generator.rs 184-186):
`fragment.get("content").and_then(as_str).unwrap_or("")`. -/
def renderFragment (fragment : Json) : String :=
  (fragOpt fragment).getD ""

/-- Contents pushed for one node's message by the rendering walk
(generator.rs 177-207): one entry per fragment of a `message` with a
`fragments` array. -/
def messageContents (child : Json) : List String :=
  match child.get "message" with
  | none => []
  | some message =>
    match (message.get "fragments").bind Json.as_array with
    | none => []
    | some fragments => fragments.map renderFragment

/-- `extract_messages_recursive` (generator.rs 167-218), restricted to the
fragment contents it visits: same traversal as `extract_messages`. -/
def extract_messages_recursive (mapping : List (String × Json)) (fuel : Nat)
    (children : List Json) : List String :=
  match children with
  | [] => []
  | childId :: rest =>
    (match childId.as_str with
     | none => []
     | some cid =>
       match jlookup mapping cid with
       | none => []
       | some child =>
         messageContents child ++
         (match (child.get "children").bind Json.as_array with
          | none => []
          | some grandchildren =>
            match fuel with
            | 0 => []
            | f + 1 => extract_messages_recursive mapping f grandchildren)) ++
    extract_messages_recursive mapping fuel rest
termination_by (fuel, children)

/-! Proof instrumentation: the fragments visited by the traversal, in visit
order. -/

/-- Fragment values of one node's message, in order. -/
def nodeFrags (child : Json) : List Json :=
  match child.get "message" with
  | none => []
  | some message =>
    match (message.get "fragments").bind Json.as_array with
    | none => []
    | some fragments => fragments

/-- All fragments visited by the shared traversal shape, in visit order. -/
def visitedFragments (mapping : List (String × Json)) (fuel : Nat)
    (children : List Json) : List Json :=
  match children with
  | [] => []
  | childId :: rest =>
    (match childId.as_str with
     | none => []
     | some cid =>
       match jlookup mapping cid with
       | none => []
       | some child =>
         nodeFrags child ++
         (match (child.get "children").bind Json.as_array with
          | none => []
          | some grandchildren =>
            match fuel with
            | 0 => []
            | f + 1 => visitedFragments mapping f grandchildren)) ++
    visitedFragments mapping fuel rest
termination_by (fuel, children)

/-! ### indexer.rs : `build_index` -/

/-- `Conversation` (indexer.rs 7-14): `id` is required, `title`,
`inserted_at`, `updated_at` are `Option<String>`, `mapping` is any value. -/
structure Conversation where
  id : String
  title : Option String
  inserted_at : Option String
  updated_at : Option String
  mapping : Json

/-- Deserialization of one optional string field, mirroring serde's
`Option<String>`: missing or `null` gives `none`, a string gives `some`,
any other value is a type error. -/
def parseOptString (kvs : List (String × Json)) (key : String) :
    Option (Option String) :=
  match jlookup kvs key with
  | none => some none
  | some Json.null => some none
  | some (Json.str s) => some (some s)
  | some _ => none

/-- Deserialization of one `Conversation`, mirroring serde derive: `id` must
be a string, the optional fields as above, `mapping` must be present (any
value); unknown keys are ignored. -/
def parseConversation (j : Json) : Option Conversation :=
  match j with
  | Json.obj kvs =>
    match jlookup kvs "id" with
    | some (Json.str id) =>
      match parseOptString kvs "title" with
      | none => none
      | some title =>
        match parseOptString kvs "inserted_at" with
        | none => none
        | some inserted_at =>
          match parseOptString kvs "updated_at" with
          | none => none
          | some updated_at =>
            match jlookup kvs "mapping" with
            | none => none
            | some mapping =>
              some ⟨id, title, inserted_at, updated_at, mapping⟩
    | _ => none
  | _ => none

/-- Deserialization of the whole batch, mirroring serde's `Vec<Conversation>`:
any failing element fails the whole vector. -/
def parseAll : List Json → Option (List Conversation)
  | [] => some []
  | j :: rest =>
    match parseConversation j with
    | none => none
    | some c =>
      match parseAll rest with
      | none => none
      | some cs => some (c :: cs)

/-- `serde_json::from_str::<Vec<Conversation>>` on an already-lexed JSON
value (indexer.rs 37): the input must be an array and every element must
deserialize. -/
def parseConversations (j : Json) : Option (List Conversation) :=
  match j.as_array with
  | none => none
  | some elems => parseAll elems

/-- One stored document of the index: the four stored fields added by
`index_writer.add_document` (indexer.rs 90-95). -/
structure Doc where
  conversation_id : String
  title : String
  content : String
  date : String
deriving DecidableEq

/-- The content extraction for one conversation (indexer.rs 80-87):
mapping must be an object with a `root` whose `children` is an array,
otherwise the content stays empty. -/
def convContent (conv : Conversation) (fuel : Nat) : String :=
  match conv.mapping.as_object with
  | none => ""
  | some mapping =>
    match jlookup mapping "root" with
    | none => ""
    | some root =>
      match (root.get "children").bind Json.as_array with
      | none => ""
      | some children => extract_messages mapping fuel children

/-- The document built for the conversation at 0-based position `idx`
(indexer.rs 77-95): missing title falls back to `"Conversation {idx+1}"`,
missing date to the empty string. -/
def indexConversation (idx : Nat) (conv : Conversation) (fuel : Nat) : Doc :=
  { conversation_id := conv.id
    title := conv.title.getD ("Conversation " ++ toString (idx + 1))
    content := convContent conv fuel
    date := conv.inserted_at.getD "" }

/-- Pair each element with its 0-based position (Rust `enumerate`). -/
def enumerateFrom (start : Nat) : List α → List (Nat × α)
  | [] => []
  | a :: rest => (start, a) :: enumerateFrom (start + 1) rest

/-- `build_index` (indexer.rs 33-102), storage I/O aside: deserialize the
batch (aborting on any failure, via `?`), then index every conversation.
`none` models the build aborting with an error. -/
def build_index (input : Json) (fuel : Nat) : Option (List Doc) :=
  match parseConversations input with
  | none => none
  | some convs =>
    some ((enumerateFrom 0 convs).map (fun p => indexConversation p.1 p.2 fuel))

/-! ### The search engine core

Modelled from the spec: the tokenizer, query handling, scoring and result
collection live in the `tantivy` library, outside this repository's sources.
The definitions below follow spec §4.2 and §4.5, with the configuration the
sources pin: `NgramTokenizer::new(2, 10, false)` with a `LowerCaser`
(indexer.rs 64-66, search.rs 31-33), title boost `2.0` (search.rs 60),
query lower-casing (search.rs 62) and `TopDocs::with_limit` (search.rs 65).
The boost factor `2.0` is modelled as the natural number `2`, scores as
naturals. -/

/-- Lower-case a sequence of code points (the `LowerCaser` filter and
`str::to_lowercase`). -/
def lowercase (cs : List Char) : List Char := cs.map Char.toLower

/-- Modelled from the spec (§4.2): the n-grams anchored at one offset —
every run of `k` code points, `2 ≤ k ≤ 10`, that fits. -/
def ngramsFrom (cs : List Char) : List (List Char) :=
  (List.range' 2 9).filterMap
    (fun k => if k ≤ cs.length then some (cs.take k) else none)

/-- Modelled from the spec (§4.2): all n-grams of lengths 2..10 at every
starting offset. -/
def allNgrams (cs : List Char) : List (List Char) :=
  cs.tails.flatMap ngramsFrom

/-- Modelled from the spec (§4.2): the indexing/query tokenizer —
case-fold, then emit every n-gram of length 2..10. -/
def tokenize (cs : List Char) : List (List Char) :=
  allNgrams (lowercase cs)

/-- Modelled from the spec (§4.5): the query parser splits the query string
into whitespace-delimited words before tokenizing each word. -/
def queryWords : List Char → List (List Char)
  | [] => [[]]
  | c :: rest =>
    if c.isWhitespace then [] :: queryWords rest
    else
      match queryWords rest with
      | [] => [[c]]
      | w :: ws => (c :: w) :: ws

/-- Modelled from the spec (§4.5 step 1-2): lower-case the query (search.rs
62), split into words, tokenize each word identically to indexing, union
the terms. -/
def queryTerms (q : List Char) : List (List Char) :=
  (queryWords (lowercase q)).flatMap tokenize

/-- Modelled from the spec (§4.5 step 2): OR semantics — a document is a
candidate when at least one query term occurs among the n-grams of its
title or of its content. -/
def docMatches (qts : List (List Char)) (d : Doc) : Bool :=
  qts.any (fun t =>
    (tokenize d.title.data).contains t || (tokenize d.content.data).contains t)

/-- Modelled from the spec (§4.5 step 3): term frequency of one term in one
stored field. -/
def tf (t : List Char) (field : String) : Nat :=
  (tokenize field.data).count t

/-- Modelled from the spec (§4.5 step 3): term-frequency relevance with the
title contribution boosted by the fixed factor 2 (search.rs 60). -/
def score (qts : List (List Char)) (d : Doc) : Nat :=
  qts.foldr (fun t acc => 2 * tf t d.title + tf t d.content + acc) 0

/-- The snippet construction of search.rs 96-101: contents of at most 200
code points are returned unchanged, longer contents are cut to their first
200 code points followed by `"..."`. -/
def make_snippet (content : String) : String :=
  if content.data.length > 200 then
    String.mk (content.data.take 200) ++ "..."
  else content

/-- `SearchResult` (search.rs 16-23). -/
structure SearchResult where
  conversation_id : String
  title : String
  date : String
  score : Nat
  snippet : String
deriving DecidableEq

/-- Hydration of one hit (search.rs 69-109): stored fields plus score and
snippet. -/
def hydrate (qts : List (List Char)) (d : Doc) : SearchResult :=
  { conversation_id := d.conversation_id
    title := d.title
    date := d.date
    score := score qts d
    snippet := make_snippet d.content }

/-- Descending-score order used to rank hits. -/
def byScore (a b : SearchResult) : Prop := b.score ≤ a.score

instance : DecidableRel byScore := fun a b => Nat.decLe b.score a.score

instance : IsTotal SearchResult byScore :=
  ⟨fun a b => Nat.le_total b.score a.score⟩

instance : IsTrans SearchResult byScore :=
  ⟨fun _ _ _ hab hbc => Nat.le_trans hbc hab⟩

/-- Modelled from the spec (§4.5 steps 2-6): `SearchEngine::search`
(search.rs 42-113) over the stored documents — keep the candidates, hydrate,
rank by descending score (stable), take the first `limit`. -/
def search (q : String) (limit : Nat) (docs : List Doc) : List SearchResult :=
  (((docs.filter (fun d => docMatches (queryTerms q.data) d)).map
      (hydrate (queryTerms q.data))).insertionSort byScore).take limit

/-- Modelled from the spec (§4.5, §7): the fallible signature of
`SearchEngine::search` — under the spec's free-text query model no query
ever produces a syntax error, so the parse step always succeeds. -/
def parse_query (q : String) : Except String (List (List Char)) :=
  Except.ok (queryTerms q.data)

/-- `SearchEngine::search` with its `Result` signature (search.rs 42):
parse the query, then rank. -/
def searchE (q : String) (limit : Nat) (docs : List Doc) :
    Except String (List SearchResult) :=
  match parse_query q with
  | Except.error e => Except.error e
  | Except.ok _ => Except.ok (search q limit docs)

/-! ### server.rs : the API handler -/

/-- `default_limit` (server.rs 30-32). -/
def default_limit : Nat := 20

/-- The deserialized `limit` of `SearchQuery` (server.rs 23-28): the serde
default applies only when the field is absent; any present value — zero
included — is kept. -/
def limitOf (raw : Option Nat) : Nat := raw.getD default_limit

/-- `SearchResponse` (server.rs 34-40); the elapsed wall-clock time is not
modelled. -/
structure SearchResponse where
  query : String
  results : List SearchResult
  total : Nat
deriving DecidableEq

/-- `search_handler` (server.rs 155-185): run the search with the
deserialized limit and report `total := results.len()`. -/
def search_handler (q : String) (rawLimit : Option Nat) (docs : List Doc) :
    SearchResponse :=
  { query := q
    results := search q (limitOf rawLimit) docs
    total := (search q (limitOf rawLimit) docs).length }

/-! ### Auxiliary definitions used by the statements -/

/-- Concatenation of a list of strings, front to back. -/
def sjoin : List String → String
  | [] => ""
  | s :: rest => s ++ sjoin rest

/-- The `children` array of a node, empty when absent or not an array. -/
def childrenArr (child : Json) : List Json :=
  ((child.get "children").bind Json.as_array).getD []

end DeepseekViewer

namespace DeepseekViewer

/-! ### Helper lemmas -/

theorem empty_append_str (s : String) : "" ++ s = s := by
  cases s
  rfl

theorem str_append_empty (s : String) : s ++ "" = s := by
  cases s
  simp [String.append]

theorem sjoin_append (a b : List String) :
    sjoin (a ++ b) = sjoin a ++ sjoin b := by
  induction a with
  | nil => rw [List.nil_append, sjoin, empty_append_str]
  | cons s rest ih =>
    rw [List.cons_append, sjoin, sjoin, ih, String.append_assoc]

/-! ### C2 : snippet truncation -/

/-- C2: every search result's snippet comes from a stored document's
content; contents of at most 200 code points are returned unchanged, longer
contents are cut to their first 200 code points followed by the
three-character marker `...` — counted and sliced in code points. -/
theorem snippet_truncation (q : String) (limit : Nat) (docs : List Doc)
    (res : SearchResult) (h : res ∈ search q limit docs) :
    ∃ d ∈ docs,
      (d.content.data.length ≤ 200 → res.snippet = d.content) ∧
      (200 < d.content.data.length →
        res.snippet.data = d.content.data.take 200 ++ ['.', '.', '.']) := by
  have h1 : res ∈ ((docs.filter fun d => docMatches (queryTerms q.data) d).map
      (hydrate (queryTerms q.data))).insertionSort byScore :=
    (List.take_sublist _ _).subset h
  rw [List.mem_insertionSort] at h1
  obtain ⟨d, hd, rfl⟩ := List.mem_map.mp h1
  refine ⟨d, (List.mem_filter.mp hd).1, ?_, ?_⟩
  · intro hle
    show make_snippet d.content = d.content
    unfold make_snippet
    rw [if_neg (by omega)]
  · intro hgt
    show (make_snippet d.content).data = _
    unfold make_snippet
    rw [if_pos (by omega), String.data_append]

/-- C2 witness: a concrete short content is returned unchanged. -/
theorem snippet_truncation_witness :
    ∃ d ∈ [(⟨"i", "t", "xx", ""⟩ : Doc)],
      (d.content.data.length ≤ 200 →
        (⟨"i", "t", "", 1, "xx"⟩ : SearchResult).snippet = d.content) ∧
      (200 < d.content.data.length →
        (⟨"i", "t", "", 1, "xx"⟩ : SearchResult).snippet.data =
          d.content.data.take 200 ++ ['.', '.', '.']) :=
  snippet_truncation "xx" 5 [⟨"i", "t", "xx", ""⟩] ⟨"i", "t", "", 1, "xx"⟩
    (by decide)

/-! ### C3 : limit handling -/

/-- C3 counterexample: the claim says a limit of 0 falls back to 20; in the
code the serde default applies only to a missing field, so `limit=0` is
passed through and yields no results although the query matches. -/
theorem limit_zero_counterexample :
    limitOf (some 0) ≠ 20 ∧
    search "ab" (limitOf (some 0)) [⟨"d1", "", "ab", ""⟩] = [] ∧
    search "ab" 20 [⟨"d1", "", "ab", ""⟩] ≠ [] := by
  refine ⟨by decide, rfl, by decide⟩

/-- C3 (amended): search returns at most `limit` results; a missing limit
falls back to 20; a present limit of 0 is not replaced — it is passed
through and produces an empty result list. -/
theorem limit_handling (q : String) (docs : List Doc) (raw : Option Nat) :
    (search q (limitOf raw) docs).length ≤ limitOf raw ∧
    (raw = none → limitOf raw = 20) ∧
    (raw = some 0 → search q (limitOf raw) docs = []) := by
  refine ⟨List.length_take_le _ _, ?_, ?_⟩
  · rintro rfl
    rfl
  · rintro rfl
    rfl

/-- C3 witness: the fallback for a missing limit is 20 at a concrete
input. -/
theorem limit_handling_witness :
    limitOf none = 20 :=
  (limit_handling "q" [] none).2.1 rfl

/-! ### C4 : every query is valid free text -/

/-- C4: under the spec's free-text query model the parse step never fails,
so search always returns `Ok`; the empty query yields zero terms and an
empty result list, not an error. -/
theorem query_free_text (q : String) (limit : Nat) (docs : List Doc) :
    ∃ rs, searchE q limit docs = Except.ok rs ∧ (q = "" → rs = []) := by
  refine ⟨search q limit docs, rfl, ?_⟩
  rintro rfl
  show ((List.map _ (List.filter _ docs)).insertionSort byScore).take limit = []
  have hf : docs.filter (fun d => docMatches (queryTerms "".data) d) = [] := by
    induction docs with
    | nil => rfl
    | cons d rest ih =>
      have hd : docMatches (queryTerms "".data) d = false := rfl
      rw [List.filter_cons_of_neg (by simp [hd]), ih]
  rw [hf]
  cases limit <;> rfl

/-- C4 witness: the empty query on a nonempty index returns `Ok []`. -/
theorem query_free_text_witness :
    searchE "" 3 [⟨"d1", "t", "ab", ""⟩] = Except.ok [] := by
  obtain ⟨rs, h1, h2⟩ := query_free_text "" 3 [⟨"d1", "t", "ab", ""⟩]
  rw [h2 rfl] at h1
  exact h1

/-! ### C10 : the handler's total field -/

/-- C10: in every successful response of the search handler, `total` equals
the number of results actually returned, which is capped by the effective
limit — not the number of matching documents. -/
theorem handler_total (q : String) (raw : Option Nat) (docs : List Doc) :
    (search_handler q raw docs).total =
      (search_handler q raw docs).results.length ∧
    (search_handler q raw docs).total ≤ limitOf raw := by
  exact ⟨rfl, List.length_take_le _ _⟩

/-! ### C5 : malformed input handling of the build -/

theorem enumerateFrom_length (s : Nat) (l : List α) :
    (enumerateFrom s l).length = l.length := by
  induction l generalizing s with
  | nil => rfl
  | cons a rest ih => simp [enumerateFrom, ih]

theorem parseAll_isSome (js : List Json)
    (h : ∀ j ∈ js, (parseConversation j).isSome) :
    ∃ cs, parseAll js = some cs ∧ cs.length = js.length := by
  induction js with
  | nil => exact ⟨[], rfl, rfl⟩
  | cons j rest ih =>
    obtain ⟨c, hc⟩ := Option.isSome_iff_exists.mp (h j (List.mem_cons_self j rest))
    obtain ⟨cs, hcs, hlen⟩ := ih (fun x hx => h x (List.mem_cons_of_mem j hx))
    exact ⟨c :: cs, by simp [parseAll, hc, hcs], by simp [hlen]⟩

theorem parseAll_none {js : List Json} {j : Json} (hj : j ∈ js)
    (h : parseConversation j = none) : parseAll js = none := by
  induction js with
  | nil => cases hj
  | cons a rest ih =>
    rcases List.mem_cons.mp hj with rfl | hmem
    · simp [parseAll, h]
    · cases ha : parseConversation a
      · simp [parseAll, ha]
      · simp [parseAll, ha, ih hmem]

/-- C5 counterexample: a batch of one well-formed and one malformed
conversation (no `id`).  The claim says the malformed one is skipped and the
rest indexed; instead `serde_json::from_str::<Vec<Conversation>>` fails and
the whole build aborts, indexing nothing. -/
theorem malformed_skip_counterexample :
    (parseConversation
      (Json.obj [("id", Json.str "g"), ("mapping", Json.obj [])])).isSome =
      true ∧
    parseConversation (Json.obj [("mapping", Json.obj [])]) = none ∧
    build_index
      (Json.arr [Json.obj [("id", Json.str "g"), ("mapping", Json.obj [])],
        Json.obj [("mapping", Json.obj [])]]) 5 = none :=
  ⟨rfl, rfl, rfl⟩

/-- C5 (amended): the batch deserialization is all-or-nothing — when every
conversation deserializes the build indexes them all, and when any single
conversation fails to deserialize the whole build aborts; tolerance exists
only below the conversation level: a parsed conversation whose mapping is
degenerate is still indexed (with empty content). -/
theorem malformed_input_aborts (js : List Json) (fuel : Nat) :
    ((∀ j ∈ js, (parseConversation j).isSome) →
      ∃ docs, build_index (Json.arr js) fuel = some docs ∧
        docs.length = js.length) ∧
    (∀ j ∈ js, parseConversation j = none →
      build_index (Json.arr js) fuel = none) ∧
    build_index (Json.arr [Json.obj [("id", Json.str "x"),
      ("mapping", Json.null)]]) fuel =
      some [⟨"x", "Conversation 1", "", ""⟩] := by
  refine ⟨?_, ?_, rfl⟩
  · intro h
    obtain ⟨cs, hcs, hlen⟩ := parseAll_isSome js h
    have hpc : parseConversations (Json.arr js) = some cs := by
      simp [parseConversations, Json.as_array, hcs]
    refine ⟨(enumerateFrom 0 cs).map (fun p => indexConversation p.1 p.2 fuel),
      by simp [build_index, hpc], ?_⟩
    rw [List.length_map, enumerateFrom_length, hlen]
  · intro j hj h
    have hpc : parseConversations (Json.arr js) = none := by
      simp [parseConversations, Json.as_array, parseAll_none hj h]
    simp [build_index, hpc]

/-- C5 witness: a batch of one well-formed conversation builds one
document. -/
theorem malformed_input_aborts_witness :
    ∃ docs, build_index
      (Json.arr [Json.obj [("id", Json.str "g"), ("mapping", Json.obj [])]])
      3 = some docs ∧
      docs.length =
        [Json.obj [("id", Json.str "g"), ("mapping", Json.obj [])]].length :=
  (malformed_input_aborts
    [Json.obj [("id", Json.str "g"), ("mapping", Json.obj [])]] 3).1
    (by decide)

/-! ### C6 : missing-metadata fallback -/

/-- C6 counterexample: indexing a conversation with no title stores the
fallback `"Conversation 1"`, not `"Untitled"` (search.rs's `"Untitled"`
default applies only to stored documents lacking the title field, which the
indexer never produces). -/
theorem untitled_fallback_counterexample :
    build_index
      (Json.arr [Json.obj [("id", Json.str "c0"), ("mapping", Json.obj [])]])
      5 = some [⟨"c0", "Conversation 1", "", ""⟩] ∧
    ("Conversation 1" : String) ≠ "Untitled" := by
  refine ⟨rfl, by decide⟩

/-- C6 (amended): a conversation with no title is still indexed and
retrievable, under the fallback title `"Conversation {idx+1}"` (its 1-based
position in the batch), and a missing date is stored and returned as the
empty string; neither absence is an error. -/
theorem missing_metadata_fallback (c : Conversation) (idx fuel : Nat)
    (qts : List (List Char)) :
    (c.title = none →
      (hydrate qts (indexConversation idx c fuel)).title =
        "Conversation " ++ toString (idx + 1)) ∧
    (c.inserted_at = none →
      (hydrate qts (indexConversation idx c fuel)).date = "") := by
  constructor <;> intro h <;> simp [hydrate, indexConversation, h]

/-- C6 witness: the fallbacks at position 0. -/
theorem missing_metadata_fallback_witness :
    (hydrate [] (indexConversation 0 ⟨"c0", none, none, none, Json.null⟩
      0)).title = "Conversation " ++ toString (0 + 1) ∧
    (hydrate [] (indexConversation 0 ⟨"c0", none, none, none, Json.null⟩
      0)).date = "" :=
  ⟨(missing_metadata_fallback ⟨"c0", none, none, none, Json.null⟩ 0 0 []).1
      rfl,
    (missing_metadata_fallback ⟨"c0", none, none, none, Json.null⟩ 0 0 []).2
      rfl⟩

/-! ### C8 / C9 : the tree walks -/

theorem fragmentsText_append (a b : List Json) :
    fragmentsText (a ++ b) = fragmentsText a ++ fragmentsText b := by
  induction a with
  | nil => rw [List.nil_append, fragmentsText, empty_append_str]
  | cons fr rest ih =>
    show fragmentsText (fr :: (rest ++ b)) = _
    simp only [fragmentsText]
    rw [ih, String.append_assoc]

theorem messageText_eq (child : Json) :
    messageText child = fragmentsText (nodeFrags child) := by
  cases hm : child.get "message" with
  | none => simp [messageText, nodeFrags, hm, fragmentsText]
  | some message =>
    cases hf : (message.get "fragments").bind Json.as_array with
    | none => simp [messageText, nodeFrags, hm, hf, fragmentsText]
    | some frs => simp [messageText, nodeFrags, hm, hf]

theorem messageContents_eq (child : Json) :
    messageContents child = (nodeFrags child).map renderFragment := by
  cases hm : child.get "message" with
  | none => simp [messageContents, nodeFrags, hm]
  | some message =>
    cases hf : (message.get "fragments").bind Json.as_array with
    | none => simp [messageContents, nodeFrags, hm, hf]
    | some frs => simp [messageContents, nodeFrags, hm, hf]

theorem extract_eq_visited (m : List (String × Json)) (fuel : Nat)
    (children : List Json) :
    extract_messages m fuel children =
      fragmentsText (visitedFragments m fuel children) := by
  induction fuel generalizing children with
  | zero =>
    induction children with
    | nil => simp [extract_messages, visitedFragments, fragmentsText]
    | cons c rest ih =>
      simp only [extract_messages, visitedFragments]
      rw [fragmentsText_append, ← ih]
      congr 1
      cases hs : c.as_str with
      | none => simp [hs, fragmentsText]
      | some cid =>
        simp only [hs]
        cases hl : jlookup m cid with
        | none => simp [hl, fragmentsText]
        | some child =>
          simp only [hl]
          rw [fragmentsText_append, messageText_eq]
          congr 1
          cases hg : (child.get "children").bind Json.as_array with
          | none => simp [hg, fragmentsText]
          | some gcs =>
            simp only [hg]
            rfl
  | succ f ihf =>
    induction children with
    | nil => simp [extract_messages, visitedFragments, fragmentsText]
    | cons c rest ih =>
      simp only [extract_messages, visitedFragments]
      rw [fragmentsText_append, ← ih]
      congr 1
      cases hs : c.as_str with
      | none => simp [hs, fragmentsText]
      | some cid =>
        simp only [hs]
        cases hl : jlookup m cid with
        | none => simp [hl, fragmentsText]
        | some child =>
          simp only [hl]
          rw [fragmentsText_append, messageText_eq]
          congr 1
          cases hg : (child.get "children").bind Json.as_array with
          | none => simp [hg, fragmentsText]
          | some gcs =>
            simp only [hg]
            exact ihf gcs

theorem render_eq_visited (m : List (String × Json)) (fuel : Nat)
    (children : List Json) :
    extract_messages_recursive m fuel children =
      (visitedFragments m fuel children).map renderFragment := by
  induction fuel generalizing children with
  | zero =>
    induction children with
    | nil => simp [extract_messages_recursive, visitedFragments]
    | cons c rest ih =>
      simp only [extract_messages_recursive, visitedFragments]
      rw [List.map_append, ← ih]
      congr 1
      cases hs : c.as_str with
      | none => simp [hs]
      | some cid =>
        simp only [hs]
        cases hl : jlookup m cid with
        | none => simp [hl]
        | some child =>
          simp only [hl]
          rw [List.map_append, messageContents_eq]
          congr 1
          cases hg : (child.get "children").bind Json.as_array with
          | none => simp [hg]
          | some gcs =>
            simp only [hg]
            rfl
  | succ f ihf =>
    induction children with
    | nil => simp [extract_messages_recursive, visitedFragments]
    | cons c rest ih =>
      simp only [extract_messages_recursive, visitedFragments]
      rw [List.map_append, ← ih]
      congr 1
      cases hs : c.as_str with
      | none => simp [hs]
      | some cid =>
        simp only [hs]
        cases hl : jlookup m cid with
        | none => simp [hl]
        | some child =>
          simp only [hl]
          rw [List.map_append, messageContents_eq]
          congr 1
          cases hg : (child.get "children").bind Json.as_array with
          | none => simp [hg]
          | some gcs =>
            simp only [hg]
            exact ihf gcs

theorem fragmentsText_eq_sjoin (frs : List Json) :
    fragmentsText frs =
      sjoin ((frs.filterMap fragOpt).map (fun c => c ++ " ")) := by
  induction frs with
  | nil => rfl
  | cons fr rest ih =>
    simp only [fragmentsText, List.filterMap_cons]
    cases h : fragOpt fr with
    | none => rw [empty_append_str, ih]
    | some t =>
      simp only [List.map_cons, sjoin]
      rw [ih]

theorem sjoin_render_eq (frs : List Json) :
    sjoin (frs.map renderFragment) = sjoin (frs.filterMap fragOpt) := by
  induction frs with
  | nil => rfl
  | cons fr rest ih =>
    simp only [List.map_cons, List.filterMap_cons, sjoin, renderFragment]
    cases h : fragOpt fr with
    | none =>
      simp only [Option.getD_none]
      rw [empty_append_str, ih]
    | some t =>
      simp only [Option.getD_some, sjoin]
      rw [ih]

/-- C8: the extracted content is produced by the depth-first walk —
processing the listed child ids in array order (conjunct 1), silently
skipping entries that are not ids or not in the mapping (conjunct 2),
appending a found node's fragment contents and then recursing into its own
children (conjunct 3), separating every appended fragment content by
whitespace (conjunct 4), starting from the root node's `children` list
(conjunct 5).  The embedding is a pure function of the mapping. -/
theorem tree_extraction (m : List (String × Json)) (fuel : Nat) :
    (∀ (c : Json) (rest : List Json),
      extract_messages m fuel (c :: rest) =
        extract_messages m fuel [c] ++ extract_messages m fuel rest) ∧
    (∀ (c : Json) (rest : List Json),
      (c.as_str = none ∨ ∃ cid, c.as_str = some cid ∧ jlookup m cid = none) →
      extract_messages m fuel (c :: rest) = extract_messages m fuel rest) ∧
    (∀ (cid : String) (child : Json) (rest : List Json),
      jlookup m cid = some child →
      extract_messages m (fuel + 1) (Json.str cid :: rest) =
        messageText child ++ extract_messages m fuel (childrenArr child) ++
          extract_messages m (fuel + 1) rest) ∧
    (∀ frs : List Json,
      fragmentsText frs =
        sjoin ((frs.filterMap fragOpt).map (fun c => c ++ " "))) ∧
    (∀ (conv : Conversation) (kvs : List (String × Json)) (root : Json)
        (cs : List Json),
      conv.mapping = Json.obj kvs → jlookup kvs "root" = some root →
      (root.get "children").bind Json.as_array = some cs →
      convContent conv fuel = extract_messages kvs fuel cs) := by
  refine ⟨?_, ?_, ?_, fragmentsText_eq_sjoin, ?_⟩
  · intro c rest
    simp only [extract_messages]
    rw [str_append_empty]
  · intro c rest h
    simp only [extract_messages]
    rcases h with h | ⟨cid, h1, h2⟩
    · rw [h]
      exact empty_append_str _
    · simp only [h1, h2]
      exact empty_append_str _
  · intro cid child rest h
    simp only [extract_messages, Json.as_str, h]
    unfold childrenArr
    cases hg : (child.get "children").bind Json.as_array with
    | none =>
      simp only [hg, Option.getD_none, extract_messages, str_append_empty]
    | some gcs =>
      simp only [hg, Option.getD_some]
  · intro conv kvs root cs h1 h2 h3
    unfold convContent
    rw [h1]
    simp only [Json.as_object, h2, h3]

/-- C8 witness: the visit equation at a one-node mapping. -/
theorem tree_extraction_witness :
    extract_messages
      [("n1", Json.obj [("message", Json.obj [("fragments",
        Json.arr [Json.obj [("content", Json.str "hi")]])])])] 1
      [Json.str "n1"] =
    messageText (Json.obj [("message", Json.obj [("fragments",
        Json.arr [Json.obj [("content", Json.str "hi")]])])]) ++
      extract_messages
        [("n1", Json.obj [("message", Json.obj [("fragments",
          Json.arr [Json.obj [("content", Json.str "hi")]])])])] 0
        (childrenArr (Json.obj [("message", Json.obj [("fragments",
          Json.arr [Json.obj [("content", Json.str "hi")]])])])) ++
      extract_messages
        [("n1", Json.obj [("message", Json.obj [("fragments",
          Json.arr [Json.obj [("content", Json.str "hi")]])])])] 1 [] :=
  (tree_extraction
    [("n1", Json.obj [("message", Json.obj [("fragments",
      Json.arr [Json.obj [("content", Json.str "hi")]])])])] 0).2.2.1
    "n1"
    (Json.obj [("message", Json.obj [("fragments",
      Json.arr [Json.obj [("content", Json.str "hi")]])])])
    [] rfl

/-- C9: the indexing walk and the rendering walk visit the same fragments,
in the same order, with the same skip-missing-id policy: the text extracted
for indexing is exactly the visited fragment contents each followed by one
space, and the concatenation of the contents collected by the rendering
walk equals the concatenation of those same visited contents (the
renderer's empty placeholders for contentless fragments vanish in the
concatenation), for every mapping and fuel. -/
theorem traversal_equivalence (m : List (String × Json)) (fuel : Nat)
    (children : List Json) :
    extract_messages m fuel children =
      sjoin (((visitedFragments m fuel children).filterMap fragOpt).map
        (fun c => c ++ " ")) ∧
    sjoin (extract_messages_recursive m fuel children) =
      sjoin ((visitedFragments m fuel children).filterMap fragOpt) := by
  constructor
  · rw [extract_eq_visited, fragmentsText_eq_sjoin]
  · rw [render_eq_visited, sjoin_render_eq]

/-! ### C1 : substring completeness -/

theorem charOfNat_toNat {n : Nat} (h1 : n ≤ 122) : (Char.ofNat n).toNat = n := by
  have hv : n.isValidChar := Or.inl (by omega)
  simp [Char.ofNat, hv, Char.ofNatAux, Char.toNat, UInt32.toNat,
    BitVec.toNat_ofNatLt]

theorem toLower_toNat (c : Char) : (Char.toLower c).toNat =
    if 65 ≤ c.toNat ∧ c.toNat ≤ 90 then c.toNat + 32 else c.toNat := by
  unfold Char.toLower
  by_cases h : c.toNat ≥ 65 ∧ c.toNat ≤ 90
  · rw [if_pos h, if_pos ⟨h.1, h.2⟩, charOfNat_toNat (by omega)]
  · rw [if_neg h, if_neg (by omega)]

theorem char_toNat_inj {a b : Char} (h : a.toNat = b.toNat) : a = b := by
  rw [← Char.ofNat_toNat a, ← Char.ofNat_toNat b, h]

theorem char_eq_iff_toNat (a b : Char) : a = b ↔ a.toNat = b.toNat :=
  ⟨fun h => by rw [h], char_toNat_inj⟩

theorem isWhitespace_toNat (c : Char) : c.isWhitespace = true ↔
    (c.toNat = 32 ∨ c.toNat = 9 ∨ c.toNat = 13 ∨ c.toNat = 10) := by
  have h32 : (' ' : Char).toNat = 32 := rfl
  have h9 : ('\t' : Char).toNat = 9 := rfl
  have h13 : ('\r' : Char).toNat = 13 := rfl
  have h10 : ('\n' : Char).toNat = 10 := rfl
  simp only [Char.isWhitespace, Bool.or_eq_true, decide_eq_true_eq,
    char_eq_iff_toNat, h32, h9, h13, h10]
  tauto

theorem toLower_isWhitespace_false {c : Char} (h : c.isWhitespace = false) :
    (Char.toLower c).isWhitespace = false := by
  have h1 : ¬(c.toNat = 32 ∨ c.toNat = 9 ∨ c.toNat = 13 ∨ c.toNat = 10) := by
    intro hc
    rw [(isWhitespace_toNat c).mpr hc] at h
    cases h
  rw [Bool.eq_false_iff]
  intro ht
  have h2 := (isWhitespace_toNat _).mp ht
  rw [toLower_toNat] at h2
  by_cases hu : 65 ≤ c.toNat ∧ c.toNat ≤ 90
  · rw [if_pos hu] at h2
    omega
  · rw [if_neg hu] at h2
    exact h1 h2

theorem toLower_toLower (c : Char) :
    (Char.toLower c).toLower = Char.toLower c := by
  have hnot : ¬(65 ≤ (Char.toLower c).toNat ∧ (Char.toLower c).toNat ≤ 90) := by
    rw [toLower_toNat]
    split_ifs with hu
    · omega
    · exact hu
  apply char_toNat_inj
  rw [toLower_toNat, if_neg hnot]

theorem lowercase_idem (r : List Char) : lowercase (lowercase r) = lowercase r := by
  induction r with
  | nil => rfl
  | cons c cs ih =>
    simp only [lowercase, List.map_cons] at ih ⊢
    rw [toLower_toLower, ih]

theorem queryWords_no_ws (cs : List Char)
    (h : ∀ c ∈ cs, c.isWhitespace = false) : queryWords cs = [cs] := by
  induction cs with
  | nil => rfl
  | cons c rest ih =>
    have hc : c.isWhitespace = false := h c (List.mem_cons_self c rest)
    have hr := ih (fun x hx => h x (List.mem_cons_of_mem c hx))
    simp only [queryWords, hc, hr]
    rfl

theorem mem_tokenize_infix (pre r post : List Char) (h2 : 2 ≤ r.length)
    (h10 : r.length ≤ 10) :
    lowercase r ∈ tokenize (pre ++ r ++ post) := by
  unfold tokenize allNgrams
  rw [List.mem_flatMap]
  refine ⟨lowercase r ++ lowercase post, ?_, ?_⟩
  · rw [List.mem_tails]
    have hdist : lowercase (pre ++ r ++ post) =
        lowercase pre ++ (lowercase r ++ lowercase post) := by
      unfold lowercase
      rw [List.map_append, List.map_append, List.append_assoc]
    rw [hdist]
    exact List.suffix_append _ _
  · unfold ngramsFrom
    rw [List.mem_filterMap]
    have hlen : (lowercase r).length = r.length := List.length_map _ _
    refine ⟨r.length, ?_, ?_⟩
    · rw [List.mem_range']
      exact ⟨r.length - 2, by omega, by omega⟩
    · rw [if_pos (by rw [List.length_append, hlen]; omega)]
      rw [← hlen, List.take_left]

theorem mem_queryTerms_self (r : List Char) (h2 : 2 ≤ r.length)
    (h10 : r.length ≤ 10) (hws : ∀ c ∈ r, c.isWhitespace = false) :
    lowercase r ∈ queryTerms r := by
  unfold queryTerms
  rw [List.mem_flatMap]
  refine ⟨lowercase r, ?_, ?_⟩
  · rw [queryWords_no_ws]
    · exact List.mem_singleton.mpr rfl
    · intro c hc
      obtain ⟨c0, hc0, rfl⟩ := List.mem_map.mp hc
      exact toLower_isWhitespace_false (hws c0 hc0)
  · have heq : tokenize (lowercase r) = tokenize r := by
      unfold tokenize
      rw [lowercase_idem]
    rw [heq]
    have hmem := mem_tokenize_infix [] r [] h2 h10
    simpa using hmem

/-- C1 counterexample: the claim as stated fails for runs containing
whitespace.  The content `"a b"` contains the 3-code-point run `"a b"`, yet
querying with exactly that run returns nothing: the query pipeline splits
the query into whitespace-delimited words first, and each single-character
word yields no n-gram of length ≥ 2. -/
theorem substring_whitespace_counterexample :
    (⟨"c1", "T", "a b", ""⟩ : Doc).content.data = [] ++ "a b".data ++ [] ∧
    2 ≤ "a b".data.length ∧ "a b".data.length ≤ 10 ∧
    [(⟨"c1", "T", "a b", ""⟩ : Doc)].length ≤ 10 ∧
    search "a b" 10 [⟨"c1", "T", "a b", ""⟩] = [] ∧
    ¬∃ res ∈ search "a b" 10 [⟨"c1", "T", "a b", ""⟩],
      res.conversation_id = "c1" := by
  refine ⟨by decide, by decide, by decide, by decide, by decide, ?_⟩
  rintro ⟨res, hres, -⟩
  rw [show search "a b" 10 [(⟨"c1", "T", "a b", ""⟩ : Doc)] = [] by decide]
    at hres
  exact absurd hres (List.not_mem_nil res)

/-- C1 (amended): for every indexed conversation whose title or content
contains a contiguous run of K code points with 2 ≤ K ≤ 10 none of which is
whitespace, searching for exactly that run (with a limit at least the number
of indexed documents) returns a result carrying that conversation's id. -/
theorem substring_completeness (docs : List Doc) (d : Doc) (limit : Nat)
    (r pre post : List Char) (hd : d ∈ docs)
    (h2 : 2 ≤ r.length) (h10 : r.length ≤ 10)
    (hws : ∀ c ∈ r, c.isWhitespace = false)
    (hsub : d.title.data = pre ++ r ++ post ∨
      d.content.data = pre ++ r ++ post)
    (hlim : docs.length ≤ limit) :
    ∃ res ∈ search (String.mk r) limit docs,
      res.conversation_id = d.conversation_id := by
  have hq : (String.mk r).data = r := rfl
  have hterm : lowercase r ∈ queryTerms (String.mk r).data := by
    rw [hq]
    exact mem_queryTerms_self r h2 h10 hws
  have hmatch : docMatches (queryTerms (String.mk r).data) d = true := by
    unfold docMatches
    rw [List.any_eq_true]
    refine ⟨lowercase r, hterm, ?_⟩
    rw [Bool.or_eq_true]
    rcases hsub with hsub | hsub
    · left
      rw [List.elem_iff, hsub]
      exact mem_tokenize_infix pre r post h2 h10
    · right
      rw [List.elem_iff, hsub]
      exact mem_tokenize_infix pre r post h2 h10
  have hf : d ∈ docs.filter
      (fun x => docMatches (queryTerms (String.mk r).data) x) :=
    List.mem_filter.mpr ⟨hd, hmatch⟩
  have hm : hydrate (queryTerms (String.mk r).data) d ∈
      (docs.filter (fun x => docMatches (queryTerms (String.mk r).data) x)).map
        (hydrate (queryTerms (String.mk r).data)) :=
    List.mem_map_of_mem _ hf
  have hs : hydrate (queryTerms (String.mk r).data) d ∈
      ((docs.filter (fun x => docMatches (queryTerms (String.mk r).data) x)).map
        (hydrate (queryTerms (String.mk r).data))).insertionSort byScore :=
    (List.mem_insertionSort byScore).mpr hm
  have hlen : (((docs.filter
      (fun x => docMatches (queryTerms (String.mk r).data) x)).map
        (hydrate (queryTerms (String.mk r).data))).insertionSort
          byScore).length ≤ limit := by
    rw [(List.perm_insertionSort byScore _).length_eq, List.length_map]
    exact Nat.le_trans (List.length_filter_le _ _) hlim
  refine ⟨hydrate (queryTerms (String.mk r).data) d, ?_, rfl⟩
  unfold search
  rw [List.take_of_length_le hlen]
  exact hs

/-- C1 witness: the uppercase run `"Ab"` inside the content `"xAbz"` is
found by the query `"Ab"`. -/
theorem substring_completeness_witness :
    ∃ res ∈ search (String.mk ['A', 'b']) 1 [⟨"c1", "T", "xAbz", ""⟩],
      res.conversation_id = (⟨"c1", "T", "xAbz", ""⟩ : Doc).conversation_id :=
  substring_completeness [⟨"c1", "T", "xAbz", ""⟩] ⟨"c1", "T", "xAbz", ""⟩ 1
    ['A', 'b'] ['x'] ['z'] (by decide) (by decide) (by decide) (by decide)
    (Or.inr (by decide)) (by decide)

/-! ### C7 : title boost -/

theorem mem_search_inv {q : String} {limit : Nat} {docs : List Doc}
    {res : SearchResult} (h : res ∈ search q limit docs) :
    ∃ d ∈ docs, docMatches (queryTerms q.data) d = true ∧
      res = hydrate (queryTerms q.data) d := by
  have h1 : res ∈ ((docs.filter fun d => docMatches (queryTerms q.data) d).map
      (hydrate (queryTerms q.data))).insertionSort byScore :=
    (List.take_sublist _ _).subset h
  rw [List.mem_insertionSort] at h1
  obtain ⟨d, hd, rfl⟩ := List.mem_map.mp h1
  obtain ⟨hdocs, hmatch⟩ := List.mem_filter.mp hd
  exact ⟨d, hdocs, hmatch, rfl⟩

theorem search_pairwise (q : String) (limit : Nat) (docs : List Doc) :
    List.Pairwise byScore (search q limit docs) :=
  List.Pairwise.sublist (List.take_sublist _ _)
    (List.sorted_insertionSort byScore _)

theorem score_double {qts : List (List Char)} {A B : Doc}
    (h : ∀ t ∈ qts, tf t B.content = tf t A.title ∧ tf t A.content = 0 ∧
      tf t B.title = 0) :
    score qts A = 2 * score qts B := by
  induction qts with
  | nil => rfl
  | cons t rest ih =>
    obtain ⟨h1, h2, h3⟩ := h t (List.mem_cons_self t rest)
    have ihr := ih (fun x hx => h x (List.mem_cons_of_mem t hx))
    simp only [score, List.foldr_cons] at ihr ⊢
    rw [h1, h2, h3]
    omega

theorem score_pos {qts : List (List Char)} {A B : Doc}
    (h : ∀ t ∈ qts, tf t B.content = tf t A.title ∧ tf t A.content = 0 ∧
      tf t B.title = 0)
    (hpos : ∃ t ∈ qts, 0 < tf t A.title) :
    0 < score qts B := by
  induction qts with
  | nil =>
    obtain ⟨t, ht, -⟩ := hpos
    cases ht
  | cons t rest ih =>
    obtain ⟨h1, h2, h3⟩ := h t (List.mem_cons_self t rest)
    simp only [score, List.foldr_cons]
    rw [h1, h3]
    obtain ⟨t0, ht0, hpos0⟩ := hpos
    rcases List.mem_cons.mp ht0 with rfl | hmem
    · omega
    · have hrest := ih (fun x hx => h x (List.mem_cons_of_mem t hx))
        ⟨t0, hmem, hpos0⟩
      simp only [score] at hrest
      omega

/-- C7: matches in the title contribute with the fixed boost factor 2
relative to content matches of the same term, so when a query's terms occur
only in A's title and only in B's content with identical term frequencies,
A's hit is ranked strictly before B's hit in the returned order. -/
theorem title_boost (q : String) (limit : Nat) (docs : List Doc)
    (A B : Doc) (hA : A ∈ docs) (hB : B ∈ docs)
    (hids : ∀ d₁ ∈ docs, ∀ d₂ ∈ docs,
      d₁.conversation_id = d₂.conversation_id → d₁ = d₂)
    (hne : A.conversation_id ≠ B.conversation_id)
    (htf : ∀ t ∈ queryTerms q.data, tf t B.content = tf t A.title ∧
      tf t A.content = 0 ∧ tf t B.title = 0)
    (hpos : ∃ t ∈ queryTerms q.data, 0 < tf t A.title)
    (i j : Nat) (hi : i < (search q limit docs).length)
    (hj : j < (search q limit docs).length)
    (hresA : ((search q limit docs).get ⟨i, hi⟩).conversation_id =
      A.conversation_id)
    (hresB : ((search q limit docs).get ⟨j, hj⟩).conversation_id =
      B.conversation_id) :
    i < j := by
  have hmemA := List.get_mem (search q limit docs) i hi
  have hmemB := List.get_mem (search q limit docs) j hj
  obtain ⟨dA, hdA, -, heqA⟩ := mem_search_inv hmemA
  obtain ⟨dB, hdB, -, heqB⟩ := mem_search_inv hmemB
  have hdAeq : dA = A := hids dA hdA A hA (by rw [← hresA, heqA]; rfl)
  have hdBeq : dB = B := hids dB hdB B hB (by rw [← hresB, heqB]; rfl)
  have hscoreA : ((search q limit docs).get ⟨i, hi⟩).score =
      score (queryTerms q.data) A := by rw [heqA, hdAeq]; rfl
  have hscoreB : ((search q limit docs).get ⟨j, hj⟩).score =
      score (queryTerms q.data) B := by rw [heqB, hdBeq]; rfl
  have hgt : score (queryTerms q.data) B < score (queryTerms q.data) A := by
    rw [score_double htf]
    have hp := score_pos htf hpos
    omega
  by_contra hij
  rcases Nat.lt_or_ge j i with hlt | hge
  · have hpw := search_pairwise q limit docs
    rw [List.pairwise_iff_get] at hpw
    have hle := hpw ⟨j, hj⟩ ⟨i, hi⟩ (Fin.mk_lt_mk.mpr hlt)
    simp only [byScore] at hle
    rw [hscoreA, hscoreB] at hle
    omega
  · have hij' : i = j := by omega
    subst hij'
    exact hne (by rw [← hresA, ← hresB])

/-- C7 witness: with the term only in A's title and only in B's content at
frequency 1, A's hit (index 0) precedes B's hit (index 1). -/
theorem title_boost_witness : (0 : Nat) < 1 :=
  title_boost "ab" 10 [⟨"B", "", "ab", ""⟩, ⟨"A", "ab", "", ""⟩]
    ⟨"A", "ab", "", ""⟩ ⟨"B", "", "ab", ""⟩
    (by decide) (by decide) (by decide) (by decide) (by decide) (by decide)
    0 1 (by decide) (by decide) (by decide) (by decide)

end DeepseekViewer
